import Mathlib

/-
Verification of the `ModelBook` catalog (src/model_book.py).

The catalog stores named mappings from string keys to model references and
offers a `reduce` operation that keeps only the entries referenced by the
turbines of a wind farm.  Python dictionaries are embedded as association
lists in insertion order (`Dict`), dictionary assignment as `dictInsert`
(overwrite in place, append when new), and lookup as `dictFind` / a raised
`KeyError` as `Except PyError`.  The external `flappy` model objects are
opaque collaborators and are modelled from the spec by their constructor
name, a textual rendering of their construction arguments, and the
partial-wake capability flag of wake models.
-/

namespace ModelBookSpec

/-- A Python dictionary with string keys, in insertion order. -/
abbrev Dict (α : Type) : Type := List (String × α)

/-- The keys of a dictionary, in insertion order. -/
def dictKeys {α : Type} (d : Dict α) : List String :=
  d.map Prod.fst

/-- Python dictionary assignment `d[k] = v`: overwrite in place when the key
exists, append otherwise. -/
def dictInsert {α : Type} (d : Dict α) (k : String) (v : α) : Dict α :=
  if k ∈ dictKeys d then
    d.map (fun p => if p.1 = k then (k, v) else p)
  else
    d ++ [(k, v)]

/-- Python dictionary lookup `d[k]`, `none` when the key is absent. -/
def dictFind {α : Type} : Dict α → String → Option α
  | [], _ => none
  | p :: d, k => if p.1 = k then some p.2 else dictFind d k

/-- Building a dictionary by a sequence of assignments. -/
def buildDict {α : Type} (ins : List (String × α)) : Dict α :=
  ins.foldl (fun d p => dictInsert d p.1 p.2) []

theorem dictKeys_nil {α : Type} : dictKeys ([] : Dict α) = [] := rfl

theorem dictKeys_cons {α : Type} (p : String × α) (d : Dict α) :
    dictKeys (p :: d) = p.1 :: dictKeys d := rfl

theorem dictFind_eq_none {α : Type} (d : Dict α) (k : String) :
    dictFind d k = none ↔ k ∉ dictKeys d := by
  induction d with
  | nil => simp [dictFind, dictKeys]
  | cons p d ih =>
    by_cases hp : p.1 = k
    · simp [dictFind, hp, dictKeys_cons]
    · simp [dictFind, hp, dictKeys_cons, ih]
      intro h
      exact fun he => hp he.symm

theorem dictFind_mem {α : Type} {d : Dict α} {k : String} {v : α}
    (h : dictFind d k = some v) : k ∈ dictKeys d := by
  by_contra hk
  rw [← dictFind_eq_none d k] at hk
  rw [h] at hk
  cases hk

theorem mem_exists_dictFind {α : Type} {d : Dict α} {k : String}
    (h : k ∈ dictKeys d) : ∃ v, dictFind d k = some v := by
  cases hf : dictFind d k with
  | none => exact absurd ((dictFind_eq_none d k).mp hf) (by simp [h])
  | some v => exact ⟨v, rfl⟩

theorem dictKeys_overwrite {α : Type} (d : Dict α) (k : String) (v : α) :
    dictKeys (d.map (fun p => if p.1 = k then (k, v) else p)) = dictKeys d := by
  induction d with
  | nil => rfl
  | cons p d ih =>
    by_cases hp : p.1 = k
    · simp [dictKeys_cons, hp, ih]
    · simp [dictKeys_cons, hp, ih]

theorem dictKeys_dictInsert_of_mem {α : Type} {d : Dict α} {k : String} (v : α)
    (h : k ∈ dictKeys d) : dictKeys (dictInsert d k v) = dictKeys d := by
  unfold dictInsert
  rw [if_pos h]
  exact dictKeys_overwrite d k v

theorem dictKeys_dictInsert_of_not_mem {α : Type} {d : Dict α} {k : String} (v : α)
    (h : k ∉ dictKeys d) : dictKeys (dictInsert d k v) = dictKeys d ++ [k] := by
  unfold dictInsert
  rw [if_neg h]
  simp [dictKeys]

theorem mem_dictKeys_dictInsert {α : Type} (d : Dict α) (k k' : String) (v : α) :
    k' ∈ dictKeys (dictInsert d k v) ↔ k' ∈ dictKeys d ∨ k' = k := by
  by_cases h : k ∈ dictKeys d
  · rw [dictKeys_dictInsert_of_mem v h]
    constructor
    · exact fun hm => Or.inl hm
    · rintro (hm | rfl)
      · exact hm
      · exact h
  · rw [dictKeys_dictInsert_of_not_mem v h]
    simp

theorem dictFind_overwrite_self {α : Type} {d : Dict α} {k : String} (v : α)
    (h : k ∈ dictKeys d) :
    dictFind (d.map (fun p => if p.1 = k then (k, v) else p)) k = some v := by
  induction d with
  | nil => simp [dictKeys] at h
  | cons p d ih =>
    by_cases hp : p.1 = k
    · simp [dictFind, hp]
    · have hd : k ∈ dictKeys d := by
        rw [dictKeys_cons] at h
        cases h with
        | head => exact absurd rfl hp
        | tail _ hm => exact hm
      simp [dictFind, hp, ih hd]

theorem dictFind_overwrite_ne {α : Type} (d : Dict α) {k k' : String} (v : α)
    (h : k' ≠ k) :
    dictFind (d.map (fun p => if p.1 = k then (k, v) else p)) k' = dictFind d k' := by
  induction d with
  | nil => rfl
  | cons p d ih =>
    by_cases hp : p.1 = k
    · have hkk : ¬ k = k' := fun he => h he.symm
      have hpk : ¬ p.1 = k' := by rw [hp]; exact hkk
      simp [dictFind, hp, hkk, hpk, ih]
    · by_cases hq : p.1 = k'
      · simp [dictFind, hp, hq, h]
      · simp [dictFind, hp, hq, ih]

theorem dictFind_append_self {α : Type} (d : Dict α) (k : String) (v : α)
    (h : k ∉ dictKeys d) : dictFind (d ++ [(k, v)]) k = some v := by
  induction d with
  | nil => simp [dictFind]
  | cons p d ih =>
    have hp : ¬ p.1 = k := fun he => h (by
      rw [dictKeys_cons]
      exact he ▸ List.mem_cons_self _ _)
    have hd : k ∉ dictKeys d := fun hm => h (by
      rw [dictKeys_cons]
      exact List.mem_cons_of_mem _ hm)
    simp [dictFind, hp, ih hd]

theorem dictFind_append_single_ne {α : Type} (d : Dict α) (k k' : String) (v : α)
    (h : k' ≠ k) : dictFind (d ++ [(k, v)]) k' = dictFind d k' := by
  induction d with
  | nil =>
    have hk : ¬ k = k' := fun he => h he.symm
    simp [dictFind, hk]
  | cons p d ih =>
    by_cases hp : p.1 = k'
    · simp [dictFind, hp]
    · simp [dictFind, hp, ih]

theorem dictFind_dictInsert_self {α : Type} (d : Dict α) (k : String) (v : α) :
    dictFind (dictInsert d k v) k = some v := by
  unfold dictInsert
  by_cases h : k ∈ dictKeys d
  · rw [if_pos h]
    exact dictFind_overwrite_self v h
  · rw [if_neg h]
    exact dictFind_append_self d k v h

theorem dictFind_dictInsert_ne {α : Type} (d : Dict α) {k k' : String} (v : α)
    (h : k' ≠ k) : dictFind (dictInsert d k v) k' = dictFind d k' := by
  unfold dictInsert
  by_cases hm : k ∈ dictKeys d
  · rw [if_pos hm]
    exact dictFind_overwrite_ne d v h
  · rw [if_neg hm]
    exact dictFind_append_single_ne d k k' v h

theorem string_append_right_cancel {a b s : String} (h : a ++ s = b ++ s) :
    a = b := by
  have hd : a.data ++ s.data = b.data ++ s.data := by
    rw [← String.data_append, ← String.data_append, h]
  have : a.data = b.data := List.append_cancel_right hd
  cases a; cases b; simp_all

theorem string_ne_append_rotor (a : String) : a ≠ a ++ "_rotor" := by
  intro h
  have hd : a.data = a.data ++ "_rotor".data := by
    rw [← String.data_append, ← h]
  have hlen := congrArg List.length hd
  rw [List.length_append] at hlen
  have h6 : ("_rotor".data : List Char).length = 6 := rfl
  omega

/-- Modelled from the spec: models of the external `flappy` package are
opaque collaborators; a model reference is represented by its constructor
name, a textual rendering of its construction arguments, and the
partial-wake capability flag carried by wake models. -/
structure Model where
  kind : String
  args : String
  partial_wakes : Bool
deriving DecidableEq

/-- A non-wake model instance (the flag is meaningless there and kept false). -/
def mdl (kind args : String) : Model :=
  { kind := kind, args := args, partial_wakes := false }

/-- Modelled from the spec: a freshly constructed wake model carries the
partial-wake flag default of its `flappy` class; the defaults are external,
so construction is parametrized by the assignment `pw` of class name to
default flag. -/
def wakeMdl (pw : String → Bool) (kind args : String) : Model :=
  { kind := kind, args := args, partial_wakes := pw kind }

/-- The rotor-model registrations of `ModelBook.__init__`, in program order. -/
def rotorInsertions : List (String × Model) :=
  [("centre", mdl "RMCentre" ""), ("stencil", mdl "RMStencil" "")] ++
  (List.range' 3 10).map
    (fun n => ("ring" ++ toString (n + 1), mdl "RMRing" ("n=" ++ toString n))) ++
  [("two_rings9", mdl "RMRings" "m=[4,4],angle0_deg=[45,0]"),
   ("two_rings13", mdl "RMRings" "m=[4,8]"),
   ("three_rings19", mdl "RMRings" "m=[4,6,8]"),
   ("four_rings29", mdl "RMRings" "m=[4,6,8,10]")] ++
  (List.range' 2 9).map
    (fun n => ("grid" ++ toString (n * n), mdl "RMGrid" ("n=" ++ toString n))) ++
  [("grid400", mdl "RMGrid" "n=20"), ("grid10000", mdl "RMGrid" "n=100")]

/-- The turbine-model registrations: the curve model only when a curves file
is given, then the fixed conversion and footprint models. -/
def turbineInsertions (ct_power_curve_file : Option String) : List (String × Model) :=
  (match ct_power_curve_file with
   | some f => [("ct_P_curves", mdl "Ws2PCt" ("ct_power_curve_file=" ++ f))]
   | none => []) ++
  [("yaw2yawm", mdl "Yaw2Yawm" "ambient_wd=True,ambient_yaw=False"),
   ("yawm2yaw", mdl "Yawm2Yaw" "ambient_wd=True,ambient_yaw=False"),
   ("zeroOutsideFarm", mdl "ZeroOutsideFarm" "")]

/-- The turbine-order registrations. -/
def orderInsertions : List (String × Model) :=
  [("farm", mdl "FarmTurbineOrder" ""),
   ("amb_wind", mdl "WindTurbineOrder" "use_amb=True"),
   ("wake_wind", mdl "WindTurbineOrder" "use_amb=False"),
   ("wake_frame", mdl "WakeFrameTurbineOrder" "")]

/-- The controller registrations. -/
def controllerInsertions : List (String × Model) :=
  [("default", mdl "WTCDefault" "")]

/-- The wake-model registrations before the rotor-variant loop. -/
def wakeInsertions (pw : String → Bool) : List (String × Model) :=
  [("Jensen", wakeMdl pw "WMJensen" ""),
   ("Jensen007", wakeMdl pw "WMJensen" "k=0.07"),
   ("Frandsen", wakeMdl pw "WMFrandsen" ""),
   ("Bastankhah", wakeMdl pw "WMBastankhah" ""),
   ("Bastankhah_smear3", wakeMdl pw "WMBastankhah" "delta_wd=3."),
   ("PorteAgel", wakeMdl pw "WMPorteAgel" ""),
   ("Botasso", wakeMdl pw "WMBotasso" ""),
   ("Ishihara_wind", wakeMdl pw "WMIshiharaWind" ""),
   ("Ishihara_ti", wakeMdl pw "WMIshiharaTI" ""),
   ("IEC_TI_2005", wakeMdl pw "WMIECTI2005" ""),
   ("IEC_TI_2019", wakeMdl pw "WMIECTI2019" ""),
   ("CrespoHernandez", wakeMdl pw "WMTICrespoHernandez" "")]

/-- The wake-superposition registrations. -/
def superpInsertions : List (String × Model) :=
  [("ti_linear", mdl "TISuperpCollection" "ti_superp=linear"),
   ("ti_quadratic", mdl "TISuperpCollection" "ti_superp=quadratic"),
   ("ti_max", mdl "TISuperpCollection" "ti_superp=max"),
   ("wind_linear", mdl "WindSuperpLinear" "use_ambws=False,limit_wake=False"),
   ("wind_linear_amb", mdl "WindSuperpLinear" "use_ambws=True,limit_wake=False"),
   ("wind_linear_lim", mdl "WindSuperpLinear" "use_ambws=False,limit_wake=True"),
   ("wind_linear_amb_lim", mdl "WindSuperpLinear" "use_ambws=True,limit_wake=True"),
   ("wind_quadratic", mdl "WindSuperpQuadratic" "use_ambws=False,limit_wake=False"),
   ("wind_quadratic_amb", mdl "WindSuperpQuadratic" "use_ambws=True,limit_wake=False"),
   ("wind_quadratic_lim", mdl "WindSuperpQuadratic" "use_ambws=False,limit_wake=True"),
   ("wind_quadratic_amb_lim", mdl "WindSuperpQuadratic" "use_ambws=True,limit_wake=True"),
   ("wind_product", mdl "WindSuperpProduct" "")]

/-- The wake centreline (frame) registrations. -/
def frameInsertions : List (String × Model) :=
  [("amb_wind", mdl "AmbientWindFrame" ""),
   ("rotor_wind", mdl "RotorWindFrame" ""),
   ("yaw_deflection", mdl "YawDeflectionFrame" ""),
   ("streamlines", mdl "StreamlineFrame" "")]

/-- The farm-calc-data registrations. -/
def farmCalcInsertions : List (String × Model) :=
  [("cables_mst", mdl "CablesMST" "")]

/-- The vertical-profile registrations: bare class-name strings. -/
def vertProfileInsertions : List (String × String) :=
  [("ws_abl_log_neutral", "ABLLogNeutralWsProfile"),
   ("ws_abl_log_stable", "ABLLogStableWsProfile"),
   ("ws_abl_log_unstable", "ABLLogUnstableWsProfile"),
   ("ws_abl_log", "ABLLogWsProfile")]

/-- The nopartial-models loop of `ModelBook.__init__`: for every key of the
frozen key list whose current model has the partial-wake flag set, register a
deep copy with the flag cleared under the derived key.  The `none` branch is
unreachable (every listed key is present) and merely skips. -/
def addRotorLoop : Dict Model → List String → Dict Model
  | d, [] => d
  | d, mname :: rest =>
    match dictFind d mname with
    | some m =>
      if m.partial_wakes then
        addRotorLoop (dictInsert d (mname ++ "_rotor") { m with partial_wakes := false }) rest
      else
        addRotorLoop d rest
    | none => addRotorLoop d rest

/-- The wake-model dictionary after the base registrations
(`wmodels = list(self.wake_models.keys())` is taken at this point). -/
def wakeBase (pw : String → Bool) : Dict Model :=
  buildDict (wakeInsertions pw)

/-- The catalog: the named mappings owned by a `ModelBook` instance. -/
structure ModelBook where
  amb_states_models : Dict Model
  rotor_models : Dict Model
  turbine_models : Dict Model
  turbine_orders : Dict Model
  controllers : Dict Model
  wake_models : Dict Model
  wake_superp : Dict Model
  wake_frames : Dict Model
  farm_calc_data_models : Dict Model
  vert_profiles : Dict String
deriving DecidableEq

/-- `ModelBook.__init__`: deterministic population of all mappings, given the
external partial-wake class defaults `pw` and the optional curves file. -/
def mkModelBook (pw : String → Bool) (ct_power_curve_file : Option String) :
    ModelBook :=
  { amb_states_models := []
    rotor_models := buildDict rotorInsertions
    turbine_models := buildDict (turbineInsertions ct_power_curve_file)
    turbine_orders := buildDict orderInsertions
    controllers := buildDict controllerInsertions
    wake_models := addRotorLoop (wakeBase pw) (dictKeys (wakeBase pw))
    wake_superp := buildDict superpInsertions
    wake_frames := buildDict frameInsertions
    farm_calc_data_models := buildDict farmCalcInsertions
    vert_profiles := buildDict vertProfileInsertions }

/-- The mutation `book.wake_models[key].partial_wakes = b`.  Updating the
value stored under `key` is faithful to the Python object mutation because
the derived entries are registered as deep copies, so the object under a key
shares no state with the object under any other key. -/
def setPartialWakes (book : ModelBook) (key : String) (b : Bool) : ModelBook :=
  { book with
    wake_models := book.wake_models.map
      (fun p => if p.1 = key then (p.1, { p.2 with partial_wakes := b }) else p) }

/-- Modelled from the spec: a turbine's info structure exposes the catalog
keys it references, by mapping-kind name: single keys for rotor model,
controller and wake frame; ordered key sequences for turbine models and wake
models. -/
structure Turbine where
  rotor_model : String
  turbine_models : List String
  controller : String
  wake_models : List String
  wake_frame : String
deriving DecidableEq

/-- Modelled from the spec: a wind farm carries its turbines in farm order. -/
structure WindFarm where
  turbines : List Turbine
deriving DecidableEq

/-- A raised Python exception: the `KeyError` from `mdict0[wm]` carries only
the missing key. -/
inductive PyError where
  | keyError : String → PyError
deriving DecidableEq

/-- The inner body of the `reduce` loops for one list of referenced keys: a
key already collected is skipped, otherwise it is copied from the source
mapping, and a key absent from the source mapping raises `KeyError`. -/
def reduceKeys (mdict0 : Dict Model) : Dict Model → List String →
    Except PyError (Dict Model)
  | mdict, [] => .ok mdict
  | mdict, wm :: rest =>
    if wm ∈ dictKeys mdict then
      reduceKeys mdict0 mdict rest
    else
      match dictFind mdict0 wm with
      | some v => reduceKeys mdict0 (dictInsert mdict wm v) rest
      | none => .error (PyError.keyError wm)

/-- The turbine loop of `reduce` for one mapping kind: turbines are visited
in farm order, each contributing its referenced key(s) `keysOf t` (a
singleton for the single-key kinds). -/
def reduceTurbines (mdict0 : Dict Model) (keysOf : Turbine → List String) :
    Dict Model → List Turbine → Except PyError (Dict Model)
  | mdict, [] => .ok mdict
  | mdict, t :: ts =>
    match reduceKeys mdict0 mdict (keysOf t) with
    | .ok mdict2 => reduceTurbines mdict0 keysOf mdict2 ts
    | .error e => .error e

/-- One filtered mapping of `reduce`, built starting from the empty `mdict`. -/
def reduceDict (mdict0 : Dict Model) (keysOf : Turbine → List String)
    (ts : List Turbine) : Except PyError (Dict Model) :=
  reduceTurbines mdict0 keysOf [] ts

/-- `ModelBook.reduce`: construct a fresh default catalog, alias the
superposition and order mappings from the source, then rebuild the five
filtered mappings from the turbines' references, propagating any `KeyError`.
The mapping kinds are processed in the program's `mtyps` order. -/
def reduce (book : ModelBook) (pw : String → Bool) (wind_farm : WindFarm) :
    Except PyError ModelBook :=
  match reduceDict book.rotor_models (fun t => [t.rotor_model]) wind_farm.turbines with
  | .error e => .error e
  | .ok rd =>
  match reduceDict book.turbine_models (fun t => t.turbine_models) wind_farm.turbines with
  | .error e => .error e
  | .ok td =>
  match reduceDict book.controllers (fun t => [t.controller]) wind_farm.turbines with
  | .error e => .error e
  | .ok cd =>
  match reduceDict book.wake_models (fun t => t.wake_models) wind_farm.turbines with
  | .error e => .error e
  | .ok wd =>
  match reduceDict book.wake_frames (fun t => [t.wake_frame]) wind_farm.turbines with
  | .error e => .error e
  | .ok fd =>
  .ok { mkModelBook pw none with
        wake_superp := book.wake_superp
        turbine_orders := book.turbine_orders
        rotor_models := rd
        turbine_models := td
        controllers := cd
        wake_models := wd
        wake_frames := fd }

/-- The keys contributed by a turbine list for one mapping kind, in
processing order. -/
def turbineKeys (keysOf : Turbine → List String) : List Turbine → List String
  | [] => []
  | t :: ts => keysOf t ++ turbineKeys keysOf ts

theorem mem_turbineKeys (keysOf : Turbine → List String) (ts : List Turbine)
    (k : String) : k ∈ turbineKeys keysOf ts ↔ ∃ t ∈ ts, k ∈ keysOf t := by
  induction ts with
  | nil => simp [turbineKeys]
  | cons t ts ih => simp [turbineKeys, ih]

theorem reduceKeys_ok_keys (mdict0 : Dict Model) :
    ∀ (ks : List String) (mdict m : Dict Model),
      reduceKeys mdict0 mdict ks = .ok m →
      ∀ k, k ∈ dictKeys m ↔ (k ∈ dictKeys mdict ∨ k ∈ ks) := by
  intro ks
  induction ks with
  | nil =>
    intro mdict m h k
    simp only [reduceKeys, Except.ok.injEq] at h
    subst h
    simp
  | cons wm rest ih =>
    intro mdict m h k
    simp only [reduceKeys] at h
    by_cases hw : wm ∈ dictKeys mdict
    · rw [if_pos hw] at h
      rw [ih mdict m h k]
      constructor
      · rintro (h1 | h2)
        · exact Or.inl h1
        · exact Or.inr (List.mem_cons_of_mem _ h2)
      · rintro (h1 | h2)
        · exact Or.inl h1
        · rcases List.mem_cons.mp h2 with rfl | h3
          · exact Or.inl hw
          · exact Or.inr h3
    · rw [if_neg hw] at h
      cases hf : dictFind mdict0 wm with
      | none =>
        rw [hf] at h
        simp at h
      | some v =>
        rw [hf] at h
        rw [ih (dictInsert mdict wm v) m h k]
        rw [mem_dictKeys_dictInsert]
        constructor
        · rintro ((h1 | rfl) | h2)
          · exact Or.inl h1
          · exact Or.inr (List.mem_cons_self _ _)
          · exact Or.inr (List.mem_cons_of_mem _ h2)
        · rintro (h1 | h2)
          · exact Or.inl (Or.inl h1)
          · rcases List.mem_cons.mp h2 with rfl | h3
            · exact Or.inl (Or.inr rfl)
            · exact Or.inr h3

theorem reduceKeys_ok_find (mdict0 : Dict Model) :
    ∀ (ks : List String) (mdict m : Dict Model),
      reduceKeys mdict0 mdict ks = .ok m →
      (∀ k ∈ dictKeys mdict, dictFind mdict k = dictFind mdict0 k) →
      ∀ k ∈ dictKeys m, dictFind m k = dictFind mdict0 k := by
  intro ks
  induction ks with
  | nil =>
    intro mdict m h hinv
    simp only [reduceKeys, Except.ok.injEq] at h
    subst h
    exact hinv
  | cons wm rest ih =>
    intro mdict m h hinv
    simp only [reduceKeys] at h
    by_cases hw : wm ∈ dictKeys mdict
    · rw [if_pos hw] at h
      exact ih mdict m h hinv
    · rw [if_neg hw] at h
      cases hf : dictFind mdict0 wm with
      | none =>
        rw [hf] at h
        simp at h
      | some v =>
        rw [hf] at h
        refine ih (dictInsert mdict wm v) m h ?_
        intro k hk
        rcases (mem_dictKeys_dictInsert mdict wm k v).mp hk with hk' | rfl
        · have hne : k ≠ wm := fun he => hw (he ▸ hk')
          rw [dictFind_dictInsert_ne mdict v hne]
          exact hinv k hk'
        · rw [dictFind_dictInsert_self]
          exact hf.symm

theorem reduceKeys_ok_nodup (mdict0 : Dict Model) :
    ∀ (ks : List String) (mdict m : Dict Model),
      reduceKeys mdict0 mdict ks = .ok m →
      (dictKeys mdict).Nodup → (dictKeys m).Nodup := by
  intro ks
  induction ks with
  | nil =>
    intro mdict m h hn
    simp only [reduceKeys, Except.ok.injEq] at h
    subst h
    exact hn
  | cons wm rest ih =>
    intro mdict m h hn
    simp only [reduceKeys] at h
    by_cases hw : wm ∈ dictKeys mdict
    · rw [if_pos hw] at h
      exact ih mdict m h hn
    · rw [if_neg hw] at h
      cases hf : dictFind mdict0 wm with
      | none =>
        rw [hf] at h
        simp at h
      | some v =>
        rw [hf] at h
        refine ih (dictInsert mdict wm v) m h ?_
        rw [dictKeys_dictInsert_of_not_mem v hw]
        rw [List.nodup_append]
        refine ⟨hn, List.nodup_singleton _, ?_⟩
        intro a ha hb
        rw [List.mem_singleton] at hb
        subst hb
        exact hw ha

theorem reduceKeys_ok_of_all_mem (mdict0 : Dict Model) :
    ∀ (ks : List String) (mdict : Dict Model),
      (∀ k ∈ ks, k ∈ dictKeys mdict0) →
      ∃ m, reduceKeys mdict0 mdict ks = .ok m := by
  intro ks
  induction ks with
  | nil =>
    intro mdict _
    exact ⟨mdict, rfl⟩
  | cons wm rest ih =>
    intro mdict hall
    by_cases hw : wm ∈ dictKeys mdict
    · obtain ⟨m, hm⟩ := ih mdict (fun k hk => hall k (List.mem_cons_of_mem _ hk))
      refine ⟨m, ?_⟩
      simp only [reduceKeys]
      rw [if_pos hw]
      exact hm
    · obtain ⟨v, hv⟩ := mem_exists_dictFind (hall wm (List.mem_cons_self _ _))
      obtain ⟨m, hm⟩ := ih (dictInsert mdict wm v)
        (fun k hk => hall k (List.mem_cons_of_mem _ hk))
      refine ⟨m, ?_⟩
      simp only [reduceKeys]
      rw [if_neg hw, hv]
      exact hm

theorem reduceKeys_error_of_missing (mdict0 : Dict Model) :
    ∀ (ks : List String) (mdict : Dict Model),
      (∀ k ∈ dictKeys mdict, k ∈ dictKeys mdict0) →
      (∃ k ∈ ks, k ∉ dictKeys mdict0) →
      ∃ k, reduceKeys mdict0 mdict ks = .error (PyError.keyError k) ∧
        k ∈ ks ∧ k ∉ dictKeys mdict0 := by
  intro ks
  induction ks with
  | nil =>
    intro mdict _ h
    simp at h
  | cons wm rest ih =>
    intro mdict hsub hex
    by_cases hw0 : wm ∈ dictKeys mdict0
    · have hex' : ∃ k ∈ rest, k ∉ dictKeys mdict0 := by
        obtain ⟨k, hk, hk0⟩ := hex
        rcases List.mem_cons.mp hk with rfl | hkr
        · exact absurd hw0 hk0
        · exact ⟨k, hkr, hk0⟩
      by_cases hw : wm ∈ dictKeys mdict
      · obtain ⟨k, hk, hkm, hk0⟩ := ih mdict hsub hex'
        refine ⟨k, ?_, List.mem_cons_of_mem _ hkm, hk0⟩
        simp only [reduceKeys]
        rw [if_pos hw]
        exact hk
      · obtain ⟨v, hv⟩ := mem_exists_dictFind hw0
        have hsub' : ∀ k ∈ dictKeys (dictInsert mdict wm v), k ∈ dictKeys mdict0 := by
          intro k hk
          rcases (mem_dictKeys_dictInsert mdict wm k v).mp hk with hk' | rfl
          · exact hsub k hk'
          · exact hw0
        obtain ⟨k, hk, hkm, hk0⟩ := ih (dictInsert mdict wm v) hsub' hex'
        refine ⟨k, ?_, List.mem_cons_of_mem _ hkm, hk0⟩
        simp only [reduceKeys]
        rw [if_neg hw, hv]
        exact hk
    · have hw : wm ∉ dictKeys mdict := fun hm => hw0 (hsub wm hm)
      have hf : dictFind mdict0 wm = none := (dictFind_eq_none mdict0 wm).mpr hw0
      refine ⟨wm, ?_, List.mem_cons_self _ _, hw0⟩
      simp only [reduceKeys]
      rw [if_neg hw, hf]

theorem reduceKeys_append (mdict0 : Dict Model) :
    ∀ (l1 l2 : List String) (mdict : Dict Model),
      reduceKeys mdict0 mdict (l1 ++ l2) =
        match reduceKeys mdict0 mdict l1 with
        | .ok m => reduceKeys mdict0 m l2
        | .error e => .error e := by
  intro l1
  induction l1 with
  | nil =>
    intro l2 mdict
    rfl
  | cons wm rest ih =>
    intro l2 mdict
    simp only [List.cons_append, reduceKeys]
    by_cases hw : wm ∈ dictKeys mdict
    · simp only [if_pos hw]
      exact ih l2 mdict
    · simp only [if_neg hw]
      cases hf : dictFind mdict0 wm with
      | some v => exact ih l2 (dictInsert mdict wm v)
      | none => rfl

theorem reduceTurbines_eq_reduceKeys (mdict0 : Dict Model)
    (keysOf : Turbine → List String) :
    ∀ (ts : List Turbine) (mdict : Dict Model),
      reduceTurbines mdict0 keysOf mdict ts =
        reduceKeys mdict0 mdict (turbineKeys keysOf ts) := by
  intro ts
  induction ts with
  | nil =>
    intro mdict
    rfl
  | cons t ts ih =>
    intro mdict
    simp only [reduceTurbines, turbineKeys]
    rw [reduceKeys_append]
    cases h : reduceKeys mdict0 mdict (keysOf t) with
    | ok m2 => exact ih m2
    | error e => rfl

theorem reduceDict_ok_keys {mdict0 : Dict Model} {keysOf : Turbine → List String}
    {ts : List Turbine} {m : Dict Model}
    (h : reduceDict mdict0 keysOf ts = .ok m) (k : String) :
    k ∈ dictKeys m ↔ ∃ t ∈ ts, k ∈ keysOf t := by
  unfold reduceDict at h
  rw [reduceTurbines_eq_reduceKeys] at h
  rw [reduceKeys_ok_keys mdict0 _ _ _ h k]
  simp [mem_turbineKeys, dictKeys]

theorem reduceDict_ok_find {mdict0 : Dict Model} {keysOf : Turbine → List String}
    {ts : List Turbine} {m : Dict Model}
    (h : reduceDict mdict0 keysOf ts = .ok m) :
    ∀ k ∈ dictKeys m, dictFind m k = dictFind mdict0 k := by
  unfold reduceDict at h
  rw [reduceTurbines_eq_reduceKeys] at h
  exact reduceKeys_ok_find mdict0 _ _ _ h (by intro k hk; simp [dictKeys] at hk)

theorem reduceDict_ok_nodup {mdict0 : Dict Model} {keysOf : Turbine → List String}
    {ts : List Turbine} {m : Dict Model}
    (h : reduceDict mdict0 keysOf ts = .ok m) : (dictKeys m).Nodup := by
  unfold reduceDict at h
  rw [reduceTurbines_eq_reduceKeys] at h
  exact reduceKeys_ok_nodup mdict0 _ _ _ h List.nodup_nil

theorem reduceDict_ok_of_all_mem {mdict0 : Dict Model}
    {keysOf : Turbine → List String} {ts : List Turbine}
    (hall : ∀ t ∈ ts, ∀ k ∈ keysOf t, k ∈ dictKeys mdict0) :
    ∃ m, reduceDict mdict0 keysOf ts = .ok m := by
  unfold reduceDict
  rw [reduceTurbines_eq_reduceKeys]
  refine reduceKeys_ok_of_all_mem mdict0 _ _ ?_
  intro k hk
  obtain ⟨t, ht, hkt⟩ := (mem_turbineKeys keysOf ts k).mp hk
  exact hall t ht k hkt

theorem reduceDict_error_of_missing {mdict0 : Dict Model}
    {keysOf : Turbine → List String} {ts : List Turbine}
    (hex : ∃ t ∈ ts, ∃ k ∈ keysOf t, k ∉ dictKeys mdict0) :
    ∃ k, reduceDict mdict0 keysOf ts = .error (PyError.keyError k) ∧
      (∃ t ∈ ts, k ∈ keysOf t) ∧ k ∉ dictKeys mdict0 := by
  unfold reduceDict
  rw [reduceTurbines_eq_reduceKeys]
  have hex' : ∃ k ∈ turbineKeys keysOf ts, k ∉ dictKeys mdict0 := by
    obtain ⟨t, ht, k, hkt, hk0⟩ := hex
    exact ⟨k, (mem_turbineKeys keysOf ts k).mpr ⟨t, ht, hkt⟩, hk0⟩
  obtain ⟨k, hk, hkm, hk0⟩ := reduceKeys_error_of_missing mdict0 (turbineKeys keysOf ts)
    [] (by intro k hk; simp [dictKeys] at hk) hex'
  exact ⟨k, hk, (mem_turbineKeys keysOf ts k).mp hkm, hk0⟩

theorem reduce_ok_elim {book : ModelBook} {pw : String → Bool} {farm : WindFarm}
    {b : ModelBook} (h : reduce book pw farm = .ok b) :
    ∃ rd td cd wd fd,
      reduceDict book.rotor_models (fun t => [t.rotor_model]) farm.turbines = .ok rd ∧
      reduceDict book.turbine_models (fun t => t.turbine_models) farm.turbines = .ok td ∧
      reduceDict book.controllers (fun t => [t.controller]) farm.turbines = .ok cd ∧
      reduceDict book.wake_models (fun t => t.wake_models) farm.turbines = .ok wd ∧
      reduceDict book.wake_frames (fun t => [t.wake_frame]) farm.turbines = .ok fd ∧
      b = { mkModelBook pw none with
            wake_superp := book.wake_superp
            turbine_orders := book.turbine_orders
            rotor_models := rd
            turbine_models := td
            controllers := cd
            wake_models := wd
            wake_frames := fd } := by
  unfold reduce at h
  cases h1 : reduceDict book.rotor_models (fun t => [t.rotor_model]) farm.turbines with
  | error e => simp only [h1] at h; exact Except.noConfusion h
  | ok rd =>
  simp only [h1] at h
  cases h2 : reduceDict book.turbine_models (fun t => t.turbine_models) farm.turbines with
  | error e => simp only [h2] at h; exact Except.noConfusion h
  | ok td =>
  simp only [h2] at h
  cases h3 : reduceDict book.controllers (fun t => [t.controller]) farm.turbines with
  | error e => simp only [h3] at h; exact Except.noConfusion h
  | ok cd =>
  simp only [h3] at h
  cases h4 : reduceDict book.wake_models (fun t => t.wake_models) farm.turbines with
  | error e => simp only [h4] at h; exact Except.noConfusion h
  | ok wd =>
  simp only [h4] at h
  cases h5 : reduceDict book.wake_frames (fun t => [t.wake_frame]) farm.turbines with
  | error e => simp only [h5] at h; exact Except.noConfusion h
  | ok fd =>
  simp only [h5, Except.ok.injEq] at h
  exact ⟨rd, td, cd, wd, fd, rfl, rfl, rfl, rfl, rfl, h.symm⟩

theorem reduce_ok_intro {book : ModelBook} {pw : String → Bool} {farm : WindFarm}
    {rd td cd wd fd : Dict Model}
    (h1 : reduceDict book.rotor_models (fun t => [t.rotor_model]) farm.turbines = .ok rd)
    (h2 : reduceDict book.turbine_models (fun t => t.turbine_models) farm.turbines = .ok td)
    (h3 : reduceDict book.controllers (fun t => [t.controller]) farm.turbines = .ok cd)
    (h4 : reduceDict book.wake_models (fun t => t.wake_models) farm.turbines = .ok wd)
    (h5 : reduceDict book.wake_frames (fun t => [t.wake_frame]) farm.turbines = .ok fd) :
    reduce book pw farm = .ok { mkModelBook pw none with
      wake_superp := book.wake_superp
      turbine_orders := book.turbine_orders
      rotor_models := rd
      turbine_models := td
      controllers := cd
      wake_models := wd
      wake_frames := fd } := by
  unfold reduce
  simp only [h1, h2, h3, h4, h5]

theorem reduce_error_intro1 {book : ModelBook} {pw : String → Bool} {farm : WindFarm}
    {e : PyError}
    (h1 : reduceDict book.rotor_models (fun t => [t.rotor_model]) farm.turbines = .error e) :
    reduce book pw farm = .error e := by
  unfold reduce
  simp only [h1]

theorem reduce_error_intro2 {book : ModelBook} {pw : String → Bool} {farm : WindFarm}
    {rd : Dict Model} {e : PyError}
    (h1 : reduceDict book.rotor_models (fun t => [t.rotor_model]) farm.turbines = .ok rd)
    (h2 : reduceDict book.turbine_models (fun t => t.turbine_models) farm.turbines = .error e) :
    reduce book pw farm = .error e := by
  unfold reduce
  simp only [h1, h2]

theorem reduce_error_intro3 {book : ModelBook} {pw : String → Bool} {farm : WindFarm}
    {rd td : Dict Model} {e : PyError}
    (h1 : reduceDict book.rotor_models (fun t => [t.rotor_model]) farm.turbines = .ok rd)
    (h2 : reduceDict book.turbine_models (fun t => t.turbine_models) farm.turbines = .ok td)
    (h3 : reduceDict book.controllers (fun t => [t.controller]) farm.turbines = .error e) :
    reduce book pw farm = .error e := by
  unfold reduce
  simp only [h1, h2, h3]

theorem reduce_error_intro4 {book : ModelBook} {pw : String → Bool} {farm : WindFarm}
    {rd td cd : Dict Model} {e : PyError}
    (h1 : reduceDict book.rotor_models (fun t => [t.rotor_model]) farm.turbines = .ok rd)
    (h2 : reduceDict book.turbine_models (fun t => t.turbine_models) farm.turbines = .ok td)
    (h3 : reduceDict book.controllers (fun t => [t.controller]) farm.turbines = .ok cd)
    (h4 : reduceDict book.wake_models (fun t => t.wake_models) farm.turbines = .error e) :
    reduce book pw farm = .error e := by
  unfold reduce
  simp only [h1, h2, h3, h4]

theorem reduce_error_intro5 {book : ModelBook} {pw : String → Bool} {farm : WindFarm}
    {rd td cd wd : Dict Model} {e : PyError}
    (h1 : reduceDict book.rotor_models (fun t => [t.rotor_model]) farm.turbines = .ok rd)
    (h2 : reduceDict book.turbine_models (fun t => t.turbine_models) farm.turbines = .ok td)
    (h3 : reduceDict book.controllers (fun t => [t.controller]) farm.turbines = .ok cd)
    (h4 : reduceDict book.wake_models (fun t => t.wake_models) farm.turbines = .ok wd)
    (h5 : reduceDict book.wake_frames (fun t => [t.wake_frame]) farm.turbines = .error e) :
    reduce book pw farm = .error e := by
  unfold reduce
  simp only [h1, h2, h3, h4, h5]

/-- `k` is a key some turbine references, for some mapping kind, that is
absent from the corresponding source mapping of `book`. -/
def badKey (book : ModelBook) (farm : WindFarm) (k : String) : Prop :=
  ∃ t ∈ farm.turbines,
    (t.rotor_model = k ∧ k ∉ dictKeys book.rotor_models) ∨
    (k ∈ t.turbine_models ∧ k ∉ dictKeys book.turbine_models) ∨
    (t.controller = k ∧ k ∉ dictKeys book.controllers) ∨
    (k ∈ t.wake_models ∧ k ∉ dictKeys book.wake_models) ∨
    (t.wake_frame = k ∧ k ∉ dictKeys book.wake_frames)

instance (book : ModelBook) (farm : WindFarm) (k : String) :
    Decidable (badKey book farm k) := by
  unfold badKey
  infer_instance

theorem dictFind_map_setflag (key : String) (b : Bool) :
    ∀ (d : Dict Model) (k : String), k ≠ key →
      dictFind (d.map
        (fun p => if p.1 = key then (p.1, { p.2 with partial_wakes := b }) else p)) k
        = dictFind d k := by
  intro d
  induction d with
  | nil =>
    intro k _
    rfl
  | cons p d ih =>
    intro k h
    by_cases hp : p.1 = key
    · have hkey : ¬ key = k := fun he => h he.symm
      simp [dictFind, hp, hkey, ih k h]
    · by_cases hq : p.1 = k
      · simp [dictFind, hp, hq, h]
      · simp [dictFind, hp, hq, ih k h]

theorem addRotorLoop_find_preserved :
    ∀ (ks : List String) (d : Dict Model) (k : String),
      (∀ y ∈ ks, k ≠ y ++ "_rotor") →
      dictFind (addRotorLoop d ks) k = dictFind d k := by
  intro ks
  induction ks with
  | nil =>
    intro d k _
    rfl
  | cons mname rest ih =>
    intro d k hk
    have hk1 : k ≠ mname ++ "_rotor" := hk mname (List.mem_cons_self _ _)
    have hkr : ∀ y ∈ rest, k ≠ y ++ "_rotor" :=
      fun y hy => hk y (List.mem_cons_of_mem _ hy)
    simp only [addRotorLoop]
    cases hf : dictFind d mname with
    | none => exact ih d k hkr
    | some m =>
      cases hp : m.partial_wakes with
      | false =>
        simp only [hp, Bool.false_eq_true, if_false]
        exact ih d k hkr
      | true =>
        simp only [hp, if_true]
        rw [ih _ k hkr]
        exact dictFind_dictInsert_ne d _ hk1

theorem addRotorLoop_variant :
    ∀ (ks : List String) (d : Dict Model) (K : String) (m : Model),
      K ∈ ks → ks.Nodup →
      (∀ x ∈ ks, ∀ y ∈ ks, x ≠ y ++ "_rotor") →
      dictFind d K = some m → m.partial_wakes = true →
      dictFind (addRotorLoop d ks) (K ++ "_rotor") =
        some { m with partial_wakes := false } := by
  intro ks
  induction ks with
  | nil =>
    intro d K m h
    cases h
  | cons x rest ih =>
    intro d K m hmem hnd hnr hfind hpw
    have hnr' : ∀ a ∈ rest, ∀ y ∈ rest, a ≠ y ++ "_rotor" :=
      fun a ha y hy => hnr a (List.mem_cons_of_mem _ ha) y (List.mem_cons_of_mem _ hy)
    have hnd' : rest.Nodup := (List.nodup_cons.mp hnd).2
    simp only [addRotorLoop]
    rcases List.mem_cons.mp hmem with rfl | hmr
    · simp only [hfind, hpw, if_true]
      have hpres : ∀ y ∈ rest, K ++ "_rotor" ≠ y ++ "_rotor" := by
        intro y hy he
        have hKy : K = y := string_append_right_cancel he
        exact (List.nodup_cons.mp hnd).1 (hKy ▸ hy)
      rw [addRotorLoop_find_preserved rest _ _ hpres]
      exact dictFind_dictInsert_self d _ _
    · cases hf : dictFind d x with
      | none => exact ih d K m hmr hnd' hnr' hfind hpw
      | some mx =>
        cases hpx : mx.partial_wakes with
        | false =>
          simp only [hpx, Bool.false_eq_true, if_false]
          exact ih d K m hmr hnd' hnr' hfind hpw
        | true =>
          simp only [hpx, if_true]
          have hKne : K ≠ x ++ "_rotor" :=
            hnr K hmem x (List.mem_cons_self _ _)
          have hfind' : dictFind
              (dictInsert d (x ++ "_rotor") { mx with partial_wakes := false }) K
              = some m := by
            rw [dictFind_dictInsert_ne d _ hKne]
            exact hfind
          exact ih _ K m hmr hnd' hnr' hfind' hpw

/-- The wake-model keys registered before the rotor-variant loop, in program
order. -/
def wakeKeyList : List String :=
  ["Jensen", "Jensen007", "Frandsen", "Bastankhah", "Bastankhah_smear3",
   "PorteAgel", "Botasso", "Ishihara_wind", "Ishihara_ti", "IEC_TI_2005",
   "IEC_TI_2019", "CrespoHernandez"]

theorem foldl_dictInsert_eq_append {α : Type} :
    ∀ (ins : List (String × α)) (d : Dict α),
      (dictKeys d ++ ins.map Prod.fst).Nodup →
      ins.foldl (fun d p => dictInsert d p.1 p.2) d = d ++ ins := by
  intro ins
  induction ins with
  | nil =>
    intro d _
    simp
  | cons p ins ih =>
    intro d hnd
    simp only [List.map_cons] at hnd
    have hdisj : (dictKeys d).Disjoint (p.1 :: ins.map Prod.fst) :=
      (List.nodup_append.mp hnd).2.2
    have hp : p.1 ∉ dictKeys d :=
      fun hm => hdisj hm (List.mem_cons_self _ _)
    have hins : dictInsert d p.1 p.2 = d ++ [p] := by
      rw [dictInsert, if_neg hp]
    have hnd' : (dictKeys (d ++ [p]) ++ ins.map Prod.fst).Nodup := by
      have hkeys : dictKeys (d ++ [p]) = dictKeys d ++ [p.1] := by
        simp [dictKeys]
      rw [hkeys, List.append_assoc, List.singleton_append]
      exact hnd
    calc (p :: ins).foldl (fun d p => dictInsert d p.1 p.2) d
        = ins.foldl (fun d p => dictInsert d p.1 p.2) (d ++ [p]) := by
          rw [List.foldl_cons, hins]
      _ = (d ++ [p]) ++ ins := ih (d ++ [p]) hnd'
      _ = d ++ p :: ins := by
          rw [List.append_assoc, List.singleton_append]

/-- A sequence of assignments with pairwise-distinct keys yields exactly the
assignment list, in order. -/
theorem buildDict_eq_self {α : Type} (ins : List (String × α))
    (h : (ins.map Prod.fst).Nodup) : buildDict ins = ins := by
  have hb := foldl_dictInsert_eq_append ins [] (by simpa [dictKeys] using h)
  simpa [buildDict] using hb

theorem wakeInsertions_keys (pw : String → Bool) :
    (wakeInsertions pw).map Prod.fst = wakeKeyList := rfl

theorem wakeKeyList_nodup : wakeKeyList.Nodup := by decide

theorem wakeBase_eq (pw : String → Bool) : wakeBase pw = wakeInsertions pw :=
  buildDict_eq_self _ (by rw [wakeInsertions_keys]; exact wakeKeyList_nodup)

theorem wakeBase_keys (pw : String → Bool) :
    dictKeys (wakeBase pw) = wakeKeyList := by
  rw [wakeBase_eq]
  exact wakeInsertions_keys pw

theorem mkModelBook_rotor (pw : String → Bool) (c : Option String) :
    (mkModelBook pw c).rotor_models = rotorInsertions :=
  buildDict_eq_self _ (by decide)

theorem mkModelBook_turbine (pw : String → Bool) (c : Option String) :
    (mkModelBook pw c).turbine_models = turbineInsertions c := by
  cases c with
  | none => exact buildDict_eq_self _ (by decide)
  | some f =>
    refine buildDict_eq_self _ ?_
    have hk : (turbineInsertions (some f)).map Prod.fst =
        ["ct_P_curves", "yaw2yawm", "yawm2yaw", "zeroOutsideFarm"] := rfl
    rw [hk]
    decide

theorem mkModelBook_orders (pw : String → Bool) (c : Option String) :
    (mkModelBook pw c).turbine_orders = orderInsertions :=
  buildDict_eq_self _ (by decide)

theorem mkModelBook_controllers (pw : String → Bool) (c : Option String) :
    (mkModelBook pw c).controllers = controllerInsertions :=
  buildDict_eq_self _ (by decide)

theorem mkModelBook_wake (pw : String → Bool) (c : Option String) :
    (mkModelBook pw c).wake_models = addRotorLoop (wakeInsertions pw) wakeKeyList := by
  dsimp only [mkModelBook]
  rw [wakeBase_keys, wakeBase_eq]

theorem mkModelBook_superp (pw : String → Bool) (c : Option String) :
    (mkModelBook pw c).wake_superp = superpInsertions :=
  buildDict_eq_self _ (by decide)

theorem mkModelBook_frames (pw : String → Bool) (c : Option String) :
    (mkModelBook pw c).wake_frames = frameInsertions :=
  buildDict_eq_self _ (by decide)

theorem mkModelBook_farmcalc (pw : String → Bool) (c : Option String) :
    (mkModelBook pw c).farm_calc_data_models = farmCalcInsertions :=
  buildDict_eq_self _ (by decide)

theorem mkModelBook_vert (pw : String → Bool) (c : Option String) :
    (mkModelBook pw c).vert_profiles = vertProfileInsertions :=
  buildDict_eq_self _ (by decide)

/-- The generated ring rotor-model keys for ring counts 4 through 13. -/
def ringKeyList : List String :=
  (List.range' 4 10).map (fun k => "ring" ++ toString k)

/-- C7: constructing the catalog without a curves file omits the
`ct_P_curves` key entirely from the turbine-model mapping while the three
fixed turbine models are all registered (construction itself is total and
always succeeds); with a curves file the key is present. -/
theorem turbine_models_without_curve_file (pw : String → Bool) (f : String) :
    dictKeys (mkModelBook pw none).turbine_models
      = ["yaw2yawm", "yawm2yaw", "zeroOutsideFarm"] ∧
    "ct_P_curves" ∉ dictKeys (mkModelBook pw none).turbine_models ∧
    dictFind (mkModelBook pw none).turbine_models "ct_P_curves" = none ∧
    dictKeys (mkModelBook pw (some f)).turbine_models
      = ["ct_P_curves", "yaw2yawm", "yawm2yaw", "zeroOutsideFarm"] := by
  rw [mkModelBook_turbine pw none, mkModelBook_turbine pw (some f)]
  refine ⟨by decide, by decide, by decide, rfl⟩

/-- C8: for every ring count 4..13 a distinct ring rotor-model key exists in
the rotor-model mapping, and the ten keys are bound to ten pairwise-distinct
model instances. -/
theorem ring_rotor_models_distinct (pw : String → Bool) (c : Option String) :
    ringKeyList.Nodup ∧
    (∀ k ∈ ringKeyList, k ∈ dictKeys (mkModelBook pw c).rotor_models) ∧
    (ringKeyList.map (fun k => dictFind (mkModelBook pw c).rotor_models k)).Nodup ∧
    (∀ k ∈ ringKeyList, dictFind (mkModelBook pw c).rotor_models k ≠ none) := by
  rw [mkModelBook_rotor pw c]
  refine ⟨by decide, by decide, by decide, by decide⟩

/-- C9: the entry under key `"ring" ++ k` (4 ≤ k ≤ 13) is the ring model
constructed with `n = k - 1`: the numeric suffix in the key is one greater
than the constructor argument. -/
theorem ring_key_numbering (pw : String → Bool) (c : Option String) (k : Nat)
    (h4 : 4 ≤ k) (h13 : k ≤ 13) :
    dictFind (mkModelBook pw c).rotor_models ("ring" ++ toString k)
      = some (mdl "RMRing" ("n=" ++ toString (k - 1))) := by
  rw [mkModelBook_rotor pw c]
  interval_cases k <;> decide

/-- C4 (amended): no two rotor-model keys (generated or fixed) collide — the
full key list is duplicate-free — but there is no fail-fast collision check:
dictionary assignment under an already-registered key silently overwrites
the existing entry and never signals an error. -/
theorem rotor_keys_distinct_insert_overwrites (pw : String → Bool) (c : Option String) :
    (dictKeys (mkModelBook pw c).rotor_models).Nodup ∧
    (∀ (d : Dict Model) (k : String) (v : Model), k ∈ dictKeys d →
      dictKeys (dictInsert d k v) = dictKeys d ∧
      dictFind (dictInsert d k v) k = some v) := by
  constructor
  · rw [mkModelBook_rotor pw c]
    decide
  · intro d k v hk
    exact ⟨dictKeys_dictInsert_of_mem v hk, dictFind_dictInsert_self d k v⟩

/-- C4 counterexample: the claim's fail-fast behaviour is absent — inserting
under the already-registered key `"centre"` replaces the stored entry and
raises no construction error (the insertion used by construction is total),
contradicting "construction fails fast ... instead of silently overwriting
the existing entry". -/
theorem dictInsert_existing_key_overwrites :
    dictInsert [("centre", mdl "RMCentre" "")] "centre" (mdl "RMStencil" "")
      = [("centre", mdl "RMStencil" "")] ∧
    mdl "RMStencil" "" ≠ mdl "RMCentre" "" := by
  refine ⟨by decide, by decide⟩

/-- C2: every wake model whose partial-wake flag is true at registration
time gets a derived `_rotor` entry: a distinct instance with the flag false
and the rest of the configuration identical, and setting the derived
instance's flag never changes the original instance. -/
theorem wake_rotor_variant (pw : String → Bool) (c : Option String)
    (K : String) (m : Model)
    (hfind : dictFind (wakeBase pw) K = some m)
    (hpw : m.partial_wakes = true) :
    dictFind (mkModelBook pw c).wake_models K = some m ∧
    dictFind (mkModelBook pw c).wake_models (K ++ "_rotor")
      = some { m with partial_wakes := false } ∧
    { m with partial_wakes := false } ≠ m ∧
    Model.kind { m with partial_wakes := false } = m.kind ∧
    Model.args { m with partial_wakes := false } = m.args ∧
    (∀ b, dictFind (setPartialWakes (mkModelBook pw c) (K ++ "_rotor") b).wake_models K
      = some m) := by
  have hK : K ∈ wakeKeyList := by
    have := dictFind_mem hfind
    rwa [wakeBase_keys] at this
  have hnr : ∀ x ∈ wakeKeyList, ∀ y ∈ wakeKeyList, x ≠ y ++ "_rotor" := by decide
  have hfind' : dictFind (wakeInsertions pw) K = some m := by
    rw [← wakeBase_eq]
    exact hfind
  have h1 : dictFind (mkModelBook pw c).wake_models K = some m := by
    rw [mkModelBook_wake pw c]
    rw [addRotorLoop_find_preserved wakeKeyList _ K (fun y hy => hnr K hK y hy)]
    exact hfind'
  have h2 : dictFind (mkModelBook pw c).wake_models (K ++ "_rotor")
      = some { m with partial_wakes := false } := by
    rw [mkModelBook_wake pw c]
    exact addRotorLoop_variant wakeKeyList _ K m hK wakeKeyList_nodup hnr hfind' hpw
  refine ⟨h1, h2, ?_, rfl, rfl, ?_⟩
  · intro he
    have := congrArg Model.partial_wakes he
    rw [hpw] at this
    simp at this
  · intro b
    have hs : (setPartialWakes (mkModelBook pw c) (K ++ "_rotor") b).wake_models
        = (mkModelBook pw c).wake_models.map
          (fun p => if p.1 = K ++ "_rotor" then (p.1, { p.2 with partial_wakes := b }) else p) := by
      dsimp only [setPartialWakes]
    rw [hs, dictFind_map_setflag _ b _ K (string_ne_append_rotor K)]
    exact h1

/-- C1: a key is in a filtered mapping of the reduced catalog exactly when
some turbine references it for that mapping kind; each collected key appears
exactly once and is bound to the same model reference as in the source
mapping (stated for the wake-model mapping, the kind the claim singles
out). -/
theorem reduce_filtered_key_iff (book : ModelBook) (pw : String → Bool)
    (farm : WindFarm) (b : ModelBook) (h : reduce book pw farm = .ok b) :
    (∀ K, K ∈ dictKeys b.rotor_models ↔ ∃ t ∈ farm.turbines, t.rotor_model = K) ∧
    (∀ K, K ∈ dictKeys b.turbine_models ↔ ∃ t ∈ farm.turbines, K ∈ t.turbine_models) ∧
    (∀ K, K ∈ dictKeys b.controllers ↔ ∃ t ∈ farm.turbines, t.controller = K) ∧
    (∀ K, K ∈ dictKeys b.wake_models ↔ ∃ t ∈ farm.turbines, K ∈ t.wake_models) ∧
    (∀ K, K ∈ dictKeys b.wake_frames ↔ ∃ t ∈ farm.turbines, t.wake_frame = K) ∧
    (∀ K, K ∈ dictKeys b.wake_models →
      (dictKeys b.wake_models).count K = 1 ∧
      dictFind b.wake_models K = dictFind book.wake_models K) := by
  obtain ⟨rd, td, cd, wd, fd, h1, h2, h3, h4, h5, rfl⟩ := reduce_ok_elim h
  refine ⟨?_, ?_, ?_, ?_, ?_, ?_⟩
  · intro K
    rw [show ({ mkModelBook pw none with
          wake_superp := book.wake_superp, turbine_orders := book.turbine_orders,
          rotor_models := rd, turbine_models := td, controllers := cd,
          wake_models := wd, wake_frames := fd } : ModelBook).rotor_models = rd
        from rfl]
    rw [reduceDict_ok_keys h1 K]
    constructor
    · rintro ⟨t, ht, hk⟩
      exact ⟨t, ht, (List.mem_singleton.mp hk).symm⟩
    · rintro ⟨t, ht, hk⟩
      exact ⟨t, ht, List.mem_singleton.mpr hk.symm⟩
  · intro K
    exact reduceDict_ok_keys h2 K
  · intro K
    rw [show ({ mkModelBook pw none with
          wake_superp := book.wake_superp, turbine_orders := book.turbine_orders,
          rotor_models := rd, turbine_models := td, controllers := cd,
          wake_models := wd, wake_frames := fd } : ModelBook).controllers = cd
        from rfl]
    rw [reduceDict_ok_keys h3 K]
    constructor
    · rintro ⟨t, ht, hk⟩
      exact ⟨t, ht, (List.mem_singleton.mp hk).symm⟩
    · rintro ⟨t, ht, hk⟩
      exact ⟨t, ht, List.mem_singleton.mpr hk.symm⟩
  · intro K
    exact reduceDict_ok_keys h4 K
  · intro K
    rw [show ({ mkModelBook pw none with
          wake_superp := book.wake_superp, turbine_orders := book.turbine_orders,
          rotor_models := rd, turbine_models := td, controllers := cd,
          wake_models := wd, wake_frames := fd } : ModelBook).wake_frames = fd
        from rfl]
    rw [reduceDict_ok_keys h5 K]
    constructor
    · rintro ⟨t, ht, hk⟩
      exact ⟨t, ht, (List.mem_singleton.mp hk).symm⟩
    · rintro ⟨t, ht, hk⟩
      exact ⟨t, ht, List.mem_singleton.mpr hk.symm⟩
  · intro K hK
    exact ⟨List.count_eq_one_of_mem (reduceDict_ok_nodup h4) hK,
      reduceDict_ok_find h4 K hK⟩

/-- C5: the reduced catalog's wake-superposition and turbine-order mappings
are identical in content to the source catalog's, whatever the turbine
collection (the empty collection included). -/
theorem reduce_preserves_superp_orders (book : ModelBook) (pw : String → Bool)
    (farm : WindFarm) (b : ModelBook) (h : reduce book pw farm = .ok b) :
    b.wake_superp = book.wake_superp ∧ b.turbine_orders = book.turbine_orders := by
  obtain ⟨rd, td, cd, wd, fd, h1, h2, h3, h4, h5, rfl⟩ := reduce_ok_elim h
  exact ⟨rfl, rfl⟩

/-- C10: the reduced catalog's vertical-profile, ambient-states and
farm-calc-data mappings are those of a fresh default construction (no curves
file), independent of the source catalog's corresponding mappings and of the
turbines. -/
theorem reduce_unfiltered_fresh (book : ModelBook) (pw : String → Bool)
    (farm : WindFarm) (b : ModelBook) (h : reduce book pw farm = .ok b) :
    b.vert_profiles = (mkModelBook pw none).vert_profiles ∧
    b.amb_states_models = (mkModelBook pw none).amb_states_models ∧
    b.farm_calc_data_models = (mkModelBook pw none).farm_calc_data_models := by
  obtain ⟨rd, td, cd, wd, fd, h1, h2, h3, h4, h5, rfl⟩ := reduce_ok_elim h
  exact ⟨rfl, rfl, rfl⟩

/-- C6: reducing an already-reduced catalog with the same turbines succeeds
and returns a catalog whose five filtered mappings have the same key sets as
the first reduction's result. -/
theorem reduce_idempotent_key_sets (book : ModelBook) (pw : String → Bool)
    (farm : WindFarm) (b : ModelBook) (h : reduce book pw farm = .ok b) :
    ∃ b2, reduce b pw farm = .ok b2 ∧
      (∀ k, k ∈ dictKeys b2.rotor_models ↔ k ∈ dictKeys b.rotor_models) ∧
      (∀ k, k ∈ dictKeys b2.turbine_models ↔ k ∈ dictKeys b.turbine_models) ∧
      (∀ k, k ∈ dictKeys b2.controllers ↔ k ∈ dictKeys b.controllers) ∧
      (∀ k, k ∈ dictKeys b2.wake_models ↔ k ∈ dictKeys b.wake_models) ∧
      (∀ k, k ∈ dictKeys b2.wake_frames ↔ k ∈ dictKeys b.wake_frames) := by
  obtain ⟨rd, td, cd, wd, fd, h1, h2, h3, h4, h5, rfl⟩ := reduce_ok_elim h
  obtain ⟨rd2, hrd2⟩ := reduceDict_ok_of_all_mem
    (fun t ht k hk => (reduceDict_ok_keys h1 k).mpr ⟨t, ht, hk⟩)
  obtain ⟨td2, htd2⟩ := reduceDict_ok_of_all_mem
    (fun t ht k hk => (reduceDict_ok_keys h2 k).mpr ⟨t, ht, hk⟩)
  obtain ⟨cd2, hcd2⟩ := reduceDict_ok_of_all_mem
    (fun t ht k hk => (reduceDict_ok_keys h3 k).mpr ⟨t, ht, hk⟩)
  obtain ⟨wd2, hwd2⟩ := reduceDict_ok_of_all_mem
    (fun t ht k hk => (reduceDict_ok_keys h4 k).mpr ⟨t, ht, hk⟩)
  obtain ⟨fd2, hfd2⟩ := reduceDict_ok_of_all_mem
    (fun t ht k hk => (reduceDict_ok_keys h5 k).mpr ⟨t, ht, hk⟩)
  refine ⟨_, reduce_ok_intro hrd2 htd2 hcd2 hwd2 hfd2, ?_, ?_, ?_, ?_, ?_⟩
  · intro k
    exact (reduceDict_ok_keys hrd2 k).trans (reduceDict_ok_keys h1 k).symm
  · intro k
    exact (reduceDict_ok_keys htd2 k).trans (reduceDict_ok_keys h2 k).symm
  · intro k
    exact (reduceDict_ok_keys hcd2 k).trans (reduceDict_ok_keys h3 k).symm
  · intro k
    exact (reduceDict_ok_keys hwd2 k).trans (reduceDict_ok_keys h4 k).symm
  · intro k
    exact (reduceDict_ok_keys hfd2 k).trans (reduceDict_ok_keys h5 k).symm

/-- C3 (amended): when any turbine references a key absent from the
corresponding source mapping, `reduce` raises a `KeyError` naming a missing
referenced key and returns no catalog — the missing reference is never
silently skipped.  (The raised error does not identify the mapping kind;
see the counterexample.) -/
theorem reduce_missing_key_error (book : ModelBook) (pw : String → Bool)
    (farm : WindFarm) (h : ∃ k, badKey book farm k) :
    ∃ k, badKey book farm k ∧ reduce book pw farm = .error (PyError.keyError k) := by
  by_cases hr : ∀ t ∈ farm.turbines, ∀ k ∈ [t.rotor_model],
      k ∈ dictKeys book.rotor_models
  case neg =>
    push_neg at hr
    obtain ⟨t, ht, k0, hk0, hmiss⟩ := hr
    obtain ⟨k, herr, ⟨t', ht', hk'⟩, hk0'⟩ :=
      @reduceDict_error_of_missing book.rotor_models (fun t => [t.rotor_model])
        farm.turbines ⟨t, ht, k0, hk0, hmiss⟩
    exact ⟨k, ⟨t', ht', Or.inl ⟨(List.mem_singleton.mp hk').symm, hk0'⟩⟩,
      reduce_error_intro1 herr⟩
  case pos =>
  obtain ⟨rd, hrd⟩ := reduceDict_ok_of_all_mem hr
  by_cases htm : ∀ t ∈ farm.turbines, ∀ k ∈ t.turbine_models,
      k ∈ dictKeys book.turbine_models
  case neg =>
    push_neg at htm
    obtain ⟨t, ht, k0, hk0, hmiss⟩ := htm
    obtain ⟨k, herr, ⟨t', ht', hk'⟩, hk0'⟩ :=
      reduceDict_error_of_missing
        ⟨t, ht, k0, hk0, hmiss⟩
    exact ⟨k, ⟨t', ht', Or.inr (Or.inl ⟨hk', hk0'⟩)⟩,
      reduce_error_intro2 hrd herr⟩
  case pos =>
  obtain ⟨td, htd⟩ := reduceDict_ok_of_all_mem htm
  by_cases hc : ∀ t ∈ farm.turbines, ∀ k ∈ [t.controller],
      k ∈ dictKeys book.controllers
  case neg =>
    push_neg at hc
    obtain ⟨t, ht, k0, hk0, hmiss⟩ := hc
    obtain ⟨k, herr, ⟨t', ht', hk'⟩, hk0'⟩ :=
      @reduceDict_error_of_missing book.controllers (fun t => [t.controller])
        farm.turbines ⟨t, ht, k0, hk0, hmiss⟩
    exact ⟨k, ⟨t', ht', Or.inr (Or.inr (Or.inl
      ⟨(List.mem_singleton.mp hk').symm, hk0'⟩))⟩,
      reduce_error_intro3 hrd htd herr⟩
  case pos =>
  obtain ⟨cd, hcd⟩ := reduceDict_ok_of_all_mem hc
  by_cases hw : ∀ t ∈ farm.turbines, ∀ k ∈ t.wake_models,
      k ∈ dictKeys book.wake_models
  case neg =>
    push_neg at hw
    obtain ⟨t, ht, k0, hk0, hmiss⟩ := hw
    obtain ⟨k, herr, ⟨t', ht', hk'⟩, hk0'⟩ :=
      reduceDict_error_of_missing
        ⟨t, ht, k0, hk0, hmiss⟩
    exact ⟨k, ⟨t', ht', Or.inr (Or.inr (Or.inr (Or.inl ⟨hk', hk0'⟩)))⟩,
      reduce_error_intro4 hrd htd hcd herr⟩
  case pos =>
  obtain ⟨wd, hwd⟩ := reduceDict_ok_of_all_mem hw
  by_cases hf : ∀ t ∈ farm.turbines, ∀ k ∈ [t.wake_frame],
      k ∈ dictKeys book.wake_frames
  case neg =>
    push_neg at hf
    obtain ⟨t, ht, k0, hk0, hmiss⟩ := hf
    obtain ⟨k, herr, ⟨t', ht', hk'⟩, hk0'⟩ :=
      @reduceDict_error_of_missing book.wake_frames (fun t => [t.wake_frame])
        farm.turbines ⟨t, ht, k0, hk0, hmiss⟩
    exact ⟨k, ⟨t', ht', Or.inr (Or.inr (Or.inr (Or.inr
      ⟨(List.mem_singleton.mp hk').symm, hk0'⟩)))⟩,
      reduce_error_intro5 hrd htd hcd hwd herr⟩
  case pos =>
  exfalso
  obtain ⟨k, t, ht, hcase⟩ := h
  rcases hcase with ⟨heq, hnot⟩ | ⟨hmem, hnot⟩ | ⟨heq, hnot⟩ | ⟨hmem, hnot⟩ | ⟨heq, hnot⟩
  · exact hnot (heq ▸ hr t ht t.rotor_model (List.mem_singleton.mpr rfl))
  · exact hnot (htm t ht k hmem)
  · exact hnot (heq ▸ hc t ht t.controller (List.mem_singleton.mpr rfl))
  · exact hnot (hw t ht k hmem)
  · exact hnot (heq ▸ hf t ht t.wake_frame (List.mem_singleton.mpr rfl))

/-- Concrete class-default flags for the test fixtures: every wake-model
class supports partial wakes. -/
def pw0 : String → Bool := fun _ => true

/-- A small concrete source catalog used by the witnesses. -/
def book0 : ModelBook :=
  { amb_states_models := []
    rotor_models := [("centre", mdl "RMCentre" ""), ("grid400", mdl "RMGrid" "n=20")]
    turbine_models := [("yaw2yawm", mdl "Yaw2Yawm" "ambient_wd=True,ambient_yaw=False")]
    turbine_orders := [("farm", mdl "FarmTurbineOrder" "")]
    controllers := [("default", mdl "WTCDefault" "")]
    wake_models := [("Jensen", { kind := "WMJensen", args := "", partial_wakes := true }),
                    ("Jensen_rotor", { kind := "WMJensen", args := "", partial_wakes := false })]
    wake_superp := [("ti_linear", mdl "TISuperpCollection" "ti_superp=linear")]
    wake_frames := [("amb_wind", mdl "AmbientWindFrame" "")]
    farm_calc_data_models := [("cables_mst", mdl "CablesMST" "")]
    vert_profiles := [("ws_abl_log", "ABLLogWsProfile")] }

/-- First fixture turbine. -/
def t1 : Turbine :=
  { rotor_model := "centre", turbine_models := ["yaw2yawm"],
    controller := "default", wake_models := ["Jensen"], wake_frame := "amb_wind" }

/-- Second fixture turbine; it shares the wake-model key of the first. -/
def t2 : Turbine :=
  { rotor_model := "grid400", turbine_models := [],
    controller := "default", wake_models := ["Jensen", "Jensen_rotor"],
    wake_frame := "amb_wind" }

/-- A two-turbine fixture farm. -/
def farm0 : WindFarm := { turbines := [t1, t2] }

/-- The empty fixture farm. -/
def farmEmpty : WindFarm := { turbines := [] }

/-- The catalog produced by reducing `book0` against `farm0`. -/
def res0 : ModelBook :=
  match reduce book0 pw0 farm0 with
  | .ok b => b
  | .error _ => book0

/-- The catalog produced by reducing `book0` against the empty farm. -/
def resEmpty : ModelBook :=
  match reduce book0 pw0 farmEmpty with
  | .ok b => b
  | .error _ => book0

/-- A turbine referencing an unregistered rotor-model key. -/
def tGhostRotor : Turbine :=
  { rotor_model := "ghost", turbine_models := [], controller := "default",
    wake_models := [], wake_frame := "amb_wind" }

/-- A turbine referencing an unregistered controller key. -/
def tGhostController : Turbine :=
  { rotor_model := "centre", turbine_models := [], controller := "ghost",
    wake_models := [], wake_frame := "amb_wind" }

/-- Farm whose only turbine has a missing rotor-model reference. -/
def farmGhostRotor : WindFarm := { turbines := [tGhostRotor] }

/-- Farm whose only turbine has a missing controller reference. -/
def farmGhostController : WindFarm := { turbines := [tGhostController] }

/-- The Jensen wake model as registered under the fixture flags. -/
def jm : Model := { kind := "WMJensen", args := "", partial_wakes := true }

theorem reduce_filtered_key_iff_witness :
    reduce book0 pw0 farm0 = .ok res0 ∧
    (dictKeys res0.wake_models).count "Jensen" = 1 ∧
    dictFind res0.wake_models "Jensen" = dictFind book0.wake_models "Jensen" := by
  have h : reduce book0 pw0 farm0 = .ok res0 := rfl
  have hm : "Jensen" ∈ dictKeys res0.wake_models := by decide
  exact ⟨h, (reduce_filtered_key_iff book0 pw0 farm0 res0 h).2.2.2.2.2 "Jensen" hm⟩

theorem wake_rotor_variant_witness :
    dictFind (wakeBase pw0) "Jensen" = some jm ∧
    jm.partial_wakes = true ∧
    dictFind (mkModelBook pw0 none).wake_models ("Jensen" ++ "_rotor")
      = some { jm with partial_wakes := false } := by
  have h1 : dictFind (wakeBase pw0) "Jensen" = some jm := by
    rw [wakeBase_eq pw0]
    rfl
  exact ⟨h1, rfl, (wake_rotor_variant pw0 none "Jensen" jm h1 rfl).2.1⟩

theorem reduce_missing_key_error_witness :
    badKey book0 farmGhostRotor "ghost" ∧
    (∃ k, badKey book0 farmGhostRotor k ∧
      reduce book0 pw0 farmGhostRotor = .error (PyError.keyError k)) := by
  have hb : badKey book0 farmGhostRotor "ghost" := by decide
  exact ⟨hb, reduce_missing_key_error book0 pw0 farmGhostRotor ⟨"ghost", hb⟩⟩

/-- C3 counterexample: two reductions that fail on different mapping kinds —
a missing rotor-model key versus a missing controller key — raise the
identical error value `KeyError "ghost"`.  The surfaced error therefore
identifies only the missing key; it cannot identify the mapping kind. -/
theorem reduce_error_does_not_name_kind :
    reduce book0 pw0 farmGhostRotor = .error (PyError.keyError "ghost") ∧
    reduce book0 pw0 farmGhostController = .error (PyError.keyError "ghost") ∧
    "ghost" ∉ dictKeys book0.rotor_models ∧
    "ghost" ∉ dictKeys book0.controllers := by
  exact ⟨rfl, rfl, by decide, by decide⟩

theorem rotor_keys_distinct_insert_overwrites_witness :
    "centre" ∈ dictKeys [("centre", mdl "RMCentre" "")] ∧
    dictKeys (dictInsert [("centre", mdl "RMCentre" "")] "centre" (mdl "RMStencil" ""))
      = dictKeys [("centre", mdl "RMCentre" "")] ∧
    dictFind (dictInsert [("centre", mdl "RMCentre" "")] "centre" (mdl "RMStencil" ""))
      "centre" = some (mdl "RMStencil" "") := by
  have hm : "centre" ∈ dictKeys [("centre", mdl "RMCentre" "")] := by decide
  have h := (rotor_keys_distinct_insert_overwrites pw0 none).2
    [("centre", mdl "RMCentre" "")] "centre" (mdl "RMStencil" "") hm
  exact ⟨hm, h.1, h.2⟩

theorem reduce_preserves_superp_orders_witness :
    reduce book0 pw0 farmEmpty = .ok resEmpty ∧
    resEmpty.wake_superp = book0.wake_superp ∧
    resEmpty.turbine_orders = book0.turbine_orders := by
  have h : reduce book0 pw0 farmEmpty = .ok resEmpty := rfl
  exact ⟨h, reduce_preserves_superp_orders book0 pw0 farmEmpty resEmpty h⟩

theorem reduce_idempotent_key_sets_witness :
    reduce book0 pw0 farm0 = .ok res0 ∧
    (∃ b2, reduce res0 pw0 farm0 = .ok b2 ∧
      (∀ k, k ∈ dictKeys b2.rotor_models ↔ k ∈ dictKeys res0.rotor_models) ∧
      (∀ k, k ∈ dictKeys b2.turbine_models ↔ k ∈ dictKeys res0.turbine_models) ∧
      (∀ k, k ∈ dictKeys b2.controllers ↔ k ∈ dictKeys res0.controllers) ∧
      (∀ k, k ∈ dictKeys b2.wake_models ↔ k ∈ dictKeys res0.wake_models) ∧
      (∀ k, k ∈ dictKeys b2.wake_frames ↔ k ∈ dictKeys res0.wake_frames)) := by
  have h : reduce book0 pw0 farm0 = .ok res0 := rfl
  exact ⟨h, reduce_idempotent_key_sets book0 pw0 farm0 res0 h⟩

theorem ring_key_numbering_witness :
    4 ≤ 4 ∧ (4 : Nat) ≤ 13 ∧
    dictFind (mkModelBook pw0 none).rotor_models ("ring" ++ toString 4)
      = some (mdl "RMRing" ("n=" ++ toString (4 - 1))) := by
  exact ⟨by decide, by decide, ring_key_numbering pw0 none 4 (by decide) (by decide)⟩

theorem reduce_unfiltered_fresh_witness :
    reduce book0 pw0 farm0 = .ok res0 ∧
    res0.vert_profiles = (mkModelBook pw0 none).vert_profiles ∧
    res0.amb_states_models = (mkModelBook pw0 none).amb_states_models ∧
    res0.farm_calc_data_models = (mkModelBook pw0 none).farm_calc_data_models := by
  have h : reduce book0 pw0 farm0 = .ok res0 := rfl
  exact ⟨h, reduce_unfiltered_fresh book0 pw0 farm0 res0 h⟩

end ModelBookSpec
